import Mathlib

/-!
Shallow embedding of the extraction/normalization pipeline of the
fb-scraper repository (Go), covering the functions the verified claims
talk about: the count parser `extractNumberFromText`, the relative-time
parser `parseRelativeTime`, the validity rule `isValidPost`, the
deduplication step `removeDuplicatePosts`, the candidate locator loop
`extractPosts`, the link-extraction block of `extractTextualEntities`,
the filter `ApplyFilter` and the identifier extractor `extractPostID`,
all from src/internal/scraper/facebook.go and
src/internal/scraper/filters.go, with the record types from
src/pkg/types/post.go.

Go strings are modelled as `List Char`; Go `int` as `Int` and
non-negative counts as `Nat` where noted; `time.Time` values are
modelled either as `Int` (Unix seconds, with the zero value 0 standing
for Go's zero time) or, for the relative-time parser, as a symbolic
expression over `now` (`GoTimeExpr`), since that function only ever
returns `now` shifted by a computed amount or the zero time.
-/

/-- Go strings, modelled as lists of characters. -/
abbrev Str := List Char

/-- Character list of a Lean string literal, used to write Go string
literals in definitions and theorems. -/
def str (s : String) : Str := s.toList

/-- ASCII lower-casing of one character (code points 65–90 shift to
97–122); models `strings.ToLower` (the repository only ever feeds it
ASCII text). -/
def lowerChar (c : Char) : Char :=
  if 65 ≤ c.toNat ∧ c.toNat ≤ 90 then Char.ofNat (c.toNat + 32) else c

/-- Models `strings.ToLower`. -/
def toLowerStr (s : Str) : Str := s.map lowerChar

/-- The ASCII decimal digits (code points 48–57), the `\d` character
class of Go's regexp. -/
def isDigitB (c : Char) : Bool := decide (48 ≤ c.toNat ∧ c.toNat ≤ 57)

/-- The `\s` character class of Go's regexp: `[\t\n\f\r ]`. -/
def isReSpace (c : Char) : Bool :=
  c = ' ' || c = '\t' || c = '\n' || c = '\x0c' || c = '\r'

/-- White space as `strings.TrimSpace` sees it (ASCII part of
`unicode.IsSpace`). -/
def isGoSpace (c : Char) : Bool :=
  c = ' ' || c = '\t' || c = '\n' || c = '\x0b' || c = '\x0c' || c = '\r'

/-- Models `strings.TrimSpace`. -/
def trimSpace (s : Str) : Str :=
  ((s.dropWhile isGoSpace).reverse.dropWhile isGoSpace).reverse

/-- Whether `pre` is a prefix of `s` (character-by-character). -/
def isPrefixB : Str → Str → Bool
  | [], _ => true
  | _ :: _, [] => false
  | a :: as, b :: bs => a = b && isPrefixB as bs

/-- Models `strings.Contains s sub`: `sub` occurs somewhere inside `s`. -/
def goContains (s sub : Str) : Bool :=
  match s with
  | [] => isPrefixB sub []
  | _ :: t => isPrefixB sub s || goContains t sub

/-- Models `strings.HasPrefix`. -/
def goStartsWith (s pre : Str) : Bool := isPrefixB pre s

/-- Numeric value of a run of decimal digits (`strconv.Atoi` on the
digit substrings the regexes capture; overflow of Go's 64-bit int is
not modelled, the counts involved are small). -/
def digitsToNat (ds : Str) : Nat :=
  ds.foldl (fun a c => a * 10 + (c.toNat - '0'.toNat)) 0

/-- One step of the suffix regex `(\d+(?:\.\d+)?)\s*([km])` of
`extractNumberFromText`, anchored at the head of `s`: a non-empty digit
run, an optional fraction, then `\s*` and a `k` or `m` suffix.  The
captured number times 1000 or 1000000, truncated to an integer
(`int(num * 1000)` on the exact rational value of the decimal literal).
Returns `none` when the head of `s` starts no such match.  Maximal digit
and space runs are taken, which agrees with the regex: a shortened run
leaves a digit (or a space) in a position where only `.`, `\s` or
`[km]` can match. -/
def suffixValueAt (s : Str) : Option Nat :=
  let ds := s.takeWhile isDigitB
  let rest := s.dropWhile isDigitB
  if ds.isEmpty then none
  else
    let fs :=
      match rest with
      | '.' :: r2 => r2.takeWhile isDigitB
      | _ => []
    let after :=
      match rest with
      | '.' :: r2 => if (r2.takeWhile isDigitB).isEmpty then rest else r2.dropWhile isDigitB
      | _ => rest
    let tail := after.dropWhile isReSpace
    match tail with
    | 'k' :: _ => some (digitsToNat (ds ++ fs) * 1000 / 10 ^ fs.length)
    | 'm' :: _ => some (digitsToNat (ds ++ fs) * 1000000 / 10 ^ fs.length)
    | _ => none

/-- Leftmost match of the suffix regex: try every start position from
the left, as Go's regexp does. -/
def findSuffixValue : Str → Option Nat
  | [] => none
  | c :: t =>
    match suffixValueAt (c :: t) with
    | some v => some v
    | none => findSuffixValue t

/-- The digits of a maximal run of `,ddd` groups, the `(?:,\d{3})+`
part of the comma regex, concatenated. -/
def commaGroups : Str → Str
  | ',' :: a :: b :: c :: rest =>
    if isDigitB a && isDigitB b && isDigitB c then
      a :: b :: c :: commaGroups rest
    else []
  | _ => []

/-- One step of the comma regex `(\d{1,3}(?:,\d{3})+)` of
`extractNumberFromText`, anchored at the head of `s`.  A match needs a
leading run of one to three digits (a longer run cannot match here: the
`\d{1,3}` group would be followed by a digit where `,` is required)
followed by at least one `,ddd` group; the commas are then stripped and
the digits read as an integer. -/
def commaValueAt (s : Str) : Option Nat :=
  let ds := s.takeWhile isDigitB
  if ds.isEmpty || decide (3 < ds.length) then none
  else
    let gs := commaGroups (s.dropWhile isDigitB)
    if gs.isEmpty then none else some (digitsToNat (ds ++ gs))

/-- Leftmost match of the comma regex. -/
def findCommaValue : Str → Option Nat
  | [] => none
  | c :: t =>
    match commaValueAt (c :: t) with
    | some v => some v
    | none => findCommaValue t

/-- Leftmost match of the bare regex `(\d+)`: the first maximal digit
run, read as an integer. -/
def findSimpleValue : Str → Option Nat
  | [] => none
  | c :: t =>
    if isDigitB c then some (digitsToNat ((c :: t).takeWhile isDigitB))
    else findSimpleValue t

/-- The count parser `extractNumberFromText` (facebook.go): lower-case and trim the
text, then try the `K`/`M` suffix regex, the comma-grouped regex and
the bare digit regex in this order, returning 0 when none matches. -/
def extractNumberFromText (text : Str) : Nat :=
  let t := toLowerStr (trimSpace text)
  match findSuffixValue t with
  | some v => v
  | none =>
    match findCommaValue t with
    | some v => v
    | none =>
      match findSimpleValue t with
      | some v => v
      | none => 0

/-! ### The relative-time parser `parseRelativeTime` (facebook.go)

The Go function returns `time.Time`: either the zero value (not-ok) or
`now` shifted by a computed offset (`now.Add(-d)` or
`now.AddDate(...)`).  Since `now` enters the computation only as the
base of that shift and through `now.Weekday()`, the embedding takes the
weekday of `now` as an argument and returns the shift symbolically. -/

/-- What `parseRelativeTime` returns, as an expression over `now`:
`zero` is Go's `time.Time{}` (the not-ok value), `nowT` is `now`
itself, `subMinutes n` is `now.Add(-n*time.Minute)`, `subHours n` is
`now.Add(-n*time.Hour)`, `subDays n` is `now.AddDate(0, 0, -n)`,
`subMonths n` is `now.AddDate(0, -n, 0)` and `subYears n` is
`now.AddDate(-n, 0, 0)`. -/
inductive GoTimeExpr
  | zero
  | nowT
  | subMinutes (n : Nat)
  | subHours (n : Nat)
  | subDays (n : Nat)
  | subMonths (n : Nat)
  | subYears (n : Nat)
  deriving DecidableEq

/-- The units of the regex alternation
`(minute|hour|day|week|month|year)`, in pattern order. -/
inductive TimeUnit
  | minute | hour | day | week | month | year
  deriving DecidableEq

/-- The literal text of each unit. -/
def unitText : TimeUnit → Str
  | .minute => str "minute"
  | .hour => str "hour"
  | .day => str "day"
  | .week => str "week"
  | .month => str "month"
  | .year => str "year"

/-- All units in the order the pattern lists them. -/
def unitList : List TimeUnit :=
  [.minute, .hour, .day, .week, .month, .year]

/-- After a unit name, the regex `s?\s*ago` must match: an optional
`s`, then spaces, then `ago`.  When the optional `s` is present but the
rest fails, backtracking to the empty option cannot succeed either
(`ago` does not start with `s`), so one greedy attempt is faithful. -/
def matchAgoTail (r : Str) : Bool :=
  match r with
  | 's' :: r2 => goStartsWith (r2.dropWhile isReSpace) (str "ago")
  | _ => goStartsWith (r.dropWhile isReSpace) (str "ago")

/-- The first unit of the alternation that is a prefix of `r`, with the
rest of `r`.  No unit is a prefix of another, so pattern order only
mirrors the regex faithfully. -/
def matchUnit (r : Str) : Option (TimeUnit × Str) :=
  unitList.foldr
    (fun u acc =>
      if goStartsWith r (unitText u) then some (u, r.drop (unitText u).length)
      else acc)
    none

/-- One step of the time regex `(\d+)\s*(minute|hour|day|week|month|year)s?\s*ago`
anchored at the head of `s`: a maximal digit run (a shortened run
leaves a digit where only `\s` or a unit letter can match), maximal
spaces, a unit, then `s?\s*ago`. -/
def timeMatchAt (s : Str) : Option (Nat × TimeUnit) :=
  let ds := s.takeWhile isDigitB
  if ds.isEmpty then none
  else
    let r := (s.dropWhile isDigitB).dropWhile isReSpace
    match matchUnit r with
    | some (u, rest) => if matchAgoTail rest then some (digitsToNat ds, u) else none
    | none => none

/-- Leftmost match of the time regex. -/
def findTimeMatch : Str → Option (Nat × TimeUnit)
  | [] => none
  | c :: t =>
    match timeMatchAt (c :: t) with
    | some m => some m
    | none => findTimeMatch t

/-- The weekday map of `parseRelativeTime`, written in the source's
literal order (Go iterates the map in unspecified order; for a text
containing at most one weekday name the order cannot matter, and every
claim below is about such texts). The numbers are Go's `time.Weekday`
values, Sunday = 0. -/
def daysOfWeek : List (Str × Nat) :=
  [(str "monday", 1), (str "tuesday", 2), (str "wednesday", 3),
   (str "thursday", 4), (str "friday", 5), (str "saturday", 6),
   (str "sunday", 0)]

/-- The first weekday of the map whose name occurs in `t`. -/
def findWeekday (t : Str) : Option Nat :=
  daysOfWeek.foldr
    (fun d acc => if goContains t d.1 then some d.2 else acc)
    none

/-- Computes `diff := (today - weekday + 7) % 7`, then 7 when that is 0 ("if
it's the same day of the week, assume last week").  `today` and
`weekday` are both below 7, so Go's remainder on
`today - weekday + 7 ≥ 1` agrees with `%` on `today + 7 - weekday`. -/
def weekdayDiff (today : Fin 7) (weekday : Nat) : Nat :=
  let diff := (today.val + 7 - weekday) % 7
  if diff = 0 then 7 else diff

/-- The relative-time parser `parseRelativeTime` (facebook.go): lower-case and trim, match the
`N unit(s) ago` regex (no `second` alternative exists in the pattern),
then the `yesterday`/`today` substrings, then a weekday name, and
return the zero time when nothing matches.  `nowWeekday` is
`now.Weekday()`.  (`strconv.Atoi` overflow on absurdly long digit runs,
which also yields the zero time, is not modelled.) -/
def parseRelativeTime (text : Str) (nowWeekday : Fin 7) : GoTimeExpr :=
  let t := toLowerStr (trimSpace text)
  match findTimeMatch t with
  | some (count, u) =>
    match u with
    | .minute => .subMinutes count
    | .hour => .subHours count
    | .day => .subDays count
    | .week => .subDays (count * 7)
    | .month => .subMonths count
    | .year => .subYears count
  | none =>
    if goContains t (str "yesterday") then .subDays 1
    else if goContains t (str "today") then .nowT
    else
      match findWeekday t with
      | some wd => .subDays (weekdayDiff nowWeekday wd)
      | none => .zero

/-! ### The data model (pkg/types/post.go)

`time.Time` fields are modelled as `Int` (Unix seconds); the value 0
stands for Go's zero time, matching `IsZero`. -/

/-- The record `types.MediaItem` (`Type` is a Lean keyword, so the Go field
`Type` is written `MediaType` here). -/
structure MediaItem where
  URL : Str
  MediaType : Str
  Description : Str
  Width : Int
  Height : Int
  Thumbnail : Str
  deriving DecidableEq

/-- The record `types.ScrapedPost`. -/
structure ScrapedPost where
  ID : Str
  GroupID : Str
  AuthorName : Str
  AuthorID : Str
  Content : Str
  URL : Str
  PostTime : Int
  LikesCount : Int
  CommentsCount : Int
  SharesCount : Int
  Images : List MediaItem
  Videos : List MediaItem
  Mentions : List Str
  Hashtags : List Str
  Links : List Str
  MediaCount : Int
  PostType : Str
  deriving DecidableEq

/-- A post with every field at its Go zero value, used to build
concrete posts. -/
def emptyPost : ScrapedPost :=
  { ID := [], GroupID := [], AuthorName := [], AuthorID := [],
    Content := [], URL := [], PostTime := 0, LikesCount := 0,
    CommentsCount := 0, SharesCount := 0, Images := [], Videos := [],
    Mentions := [], Hashtags := [], Links := [], MediaCount := 0,
    PostType := [] }

/-- The validity rule `isValidPost` (facebook.go): a non-empty ID and at least one of
non-empty content, non-empty author, positive likes, or a positive
media count.  (The source tests `post.LikesCount > 0` and
`post.MediaCount > 0` only: comment and share counts do not occur in
the condition.) -/
def isValidPost (post : ScrapedPost) : Bool :=
  !post.ID.isEmpty &&
    (!post.Content.isEmpty || !post.AuthorName.isEmpty ||
      decide (0 < post.LikesCount) || decide (0 < post.MediaCount))

/-- The validity rule as the specification words it (claim C2): a
non-empty identifier and at least one of non-empty content, non-empty
author, positive engagement on any of the three counters, or non-empty
media. -/
def isValidPostSpec (post : ScrapedPost) : Bool :=
  !post.ID.isEmpty &&
    (!post.Content.isEmpty || !post.AuthorName.isEmpty ||
      decide (0 < post.LikesCount) || decide (0 < post.CommentsCount) ||
      decide (0 < post.SharesCount) || decide (0 < post.MediaCount))

/-- The loop of `removeDuplicatePosts` (facebook.go): `seen` is the set
of IDs already kept (the Go `map[string]bool`); a post whose ID was
seen is dropped, otherwise it is kept and its ID recorded. -/
def removeDupGo (seen : List Str) : List ScrapedPost → List ScrapedPost
  | [] => []
  | post :: rest =>
    if post.ID ∈ seen then removeDupGo seen rest
    else post :: removeDupGo (post.ID :: seen) rest

/-- The deduplication step `removeDuplicatePosts` (facebook.go): keep the first post of each
ID, in order. -/
def removeDuplicatePosts (posts : List ScrapedPost) : List ScrapedPost :=
  removeDupGo [] posts

/-! ### The filter (filters.go, `ApplyFilter`) -/

/-- The record `types.PostFilter`.  Date fields are `Int` Unix seconds, 0 being
Go's zero time (`IsZero`). -/
structure PostFilter where
  MinLikes : Int
  MaxLikes : Int
  MinComments : Int
  MinShares : Int
  DaysBack : Int
  Keywords : List Str
  ExcludeKeywords : List Str
  GroupIDs : List Str
  PageIDs : List Str
  AuthorNames : List Str
  StartDate : Int
  EndDate : Int
  deriving DecidableEq

/-- The filter with nothing configured. -/
def emptyFilter : PostFilter :=
  { MinLikes := 0, MaxLikes := 0, MinComments := 0, MinShares := 0,
    DaysBack := 0, Keywords := [], ExcludeKeywords := [], GroupIDs := [],
    PageIDs := [], AuthorNames := [], StartDate := 0, EndDate := 0 }

/-- Seconds in a day; `now.AddDate(0, 0, -filter.DaysBack)` is modelled
as `now - 86400 * DaysBack` (fixed-length days; the claims below do not
depend on calendar arithmetic). -/
def secondsPerDay : Int := 86400

/-- The keyword test of `ApplyFilter`: some keyword occurs in the
lower-cased content (`strings.Contains(contentLower, strings.ToLower(keyword))`). -/
def hasAnyKeyword (content : Str) (keywords : List Str) : Bool :=
  keywords.any fun kw => goContains (toLowerStr content) (toLowerStr kw)

/-- Models `strings.EqualFold` as equality after ASCII
lower-casing. -/
def equalFold (a b : Str) : Bool := toLowerStr a == toLowerStr b

/-! Each early `return false` check of `ApplyFilter` (filters.go), as
one named boolean guard in source order. -/

/-- Guard: `filter.MinLikes > 0 && post.LikesCount < filter.MinLikes`. -/
def failMinLikes (p : ScrapedPost) (f : PostFilter) : Bool :=
  decide (0 < f.MinLikes ∧ p.LikesCount < f.MinLikes)

/-- Guard: `filter.MaxLikes > 0 && post.LikesCount > filter.MaxLikes`. -/
def failMaxLikes (p : ScrapedPost) (f : PostFilter) : Bool :=
  decide (0 < f.MaxLikes ∧ f.MaxLikes < p.LikesCount)

/-- Guard: `filter.MinComments > 0 && post.CommentsCount < filter.MinComments`. -/
def failMinComments (p : ScrapedPost) (f : PostFilter) : Bool :=
  decide (0 < f.MinComments ∧ p.CommentsCount < f.MinComments)

/-- Guard: `filter.MinShares > 0 && post.SharesCount < filter.MinShares`. -/
def failMinShares (p : ScrapedPost) (f : PostFilter) : Bool :=
  decide (0 < f.MinShares ∧ p.SharesCount < f.MinShares)

/-- Guard: `filter.DaysBack > 0 && post.PostTime.Before(now.AddDate(0, 0, -filter.DaysBack))`. -/
def failDaysBack (now : Int) (p : ScrapedPost) (f : PostFilter) : Bool :=
  decide (0 < f.DaysBack ∧ p.PostTime < now - secondsPerDay * f.DaysBack)

/-- Guard: `!filter.StartDate.IsZero() && post.PostTime.Before(filter.StartDate)`. -/
def failStartDate (p : ScrapedPost) (f : PostFilter) : Bool :=
  decide (f.StartDate ≠ 0 ∧ p.PostTime < f.StartDate)

/-- Guard: `!filter.EndDate.IsZero() && post.PostTime.After(filter.EndDate)`. -/
def failEndDate (p : ScrapedPost) (f : PostFilter) : Bool :=
  decide (f.EndDate ≠ 0 ∧ f.EndDate < p.PostTime)

/-- Configured include keywords, none of which occurs in the content. -/
def failKeywords (p : ScrapedPost) (f : PostFilter) : Bool :=
  decide (f.Keywords ≠ [] ∧ hasAnyKeyword p.Content f.Keywords = false)

/-- A configured excluded keyword occurs in the content. -/
def failExclude (p : ScrapedPost) (f : PostFilter) : Bool :=
  decide (f.ExcludeKeywords ≠ [] ∧ hasAnyKeyword p.Content f.ExcludeKeywords = true)

/-- A configured group allow-list that does not contain the post's
group id. -/
def failGroupIDs (p : ScrapedPost) (f : PostFilter) : Bool :=
  decide (f.GroupIDs ≠ [] ∧ (f.GroupIDs.any fun g => p.GroupID == g) = false)

/-- A configured author allow-list with no case-insensitive match for
the post's author. -/
def failAuthors (p : ScrapedPost) (f : PostFilter) : Bool :=
  decide (f.AuthorNames ≠ [] ∧ (f.AuthorNames.any fun a => equalFold p.AuthorName a) = false)

/-- The filter `ApplyFilter` (filters.go): the chain of early `return false`
checks, in source order; `now` is `time.Now()` as Unix seconds. -/
def ApplyFilter (now : Int) (post : ScrapedPost) (filter : PostFilter) : Bool :=
  if failMinLikes post filter then false
  else if failMaxLikes post filter then false
  else if failMinComments post filter then false
  else if failMinShares post filter then false
  else if failDaysBack now post filter then false
  else if failStartDate post filter then false
  else if failEndDate post filter then false
  else if failKeywords post filter then false
  else if failExclude post filter then false
  else if failGroupIDs post filter then false
  else if failAuthors post filter then false
  else true

/-- The filtered list `BatchFilter` (filters.go) collects: exactly the
posts `ApplyFilter` passes, in order. -/
def BatchFilterPosts (now : Int) (posts : List ScrapedPost) (filter : PostFilter) : List ScrapedPost :=
  posts.filter fun post => ApplyFilter now post filter

/-- The individually configurable predicates of the filter criteria. -/
inductive FilterField
  | minLikes | maxLikes | minComments | minShares | daysBack
  | startDate | endDate | keywords | excludeKeywords | groupIDs | authorNames
  deriving DecidableEq

/-- Removing (leaving unconfigured) one predicate of the criteria:
thresholds and date fields return to 0, keyword and allow lists to
empty. -/
def clearField : FilterField → PostFilter → PostFilter
  | .minLikes, f => { f with MinLikes := 0 }
  | .maxLikes, f => { f with MaxLikes := 0 }
  | .minComments, f => { f with MinComments := 0 }
  | .minShares, f => { f with MinShares := 0 }
  | .daysBack, f => { f with DaysBack := 0 }
  | .startDate, f => { f with StartDate := 0 }
  | .endDate, f => { f with EndDate := 0 }
  | .keywords, f => { f with Keywords := [] }
  | .excludeKeywords, f => { f with ExcludeKeywords := [] }
  | .groupIDs, f => { f with GroupIDs := [] }
  | .authorNames, f => { f with AuthorNames := [] }

/-! ### The post-candidate locator `extractPosts` (facebook.go)

The DOM and `doc.Find` are opaque to the loop: the embedding takes the
find results per selector (`find`) and the per-candidate assembly
(`extractSingle`, standing for `extractSinglePost`, which returns `nil`
for a candidate it rejects) as parameters and keeps the loop structure:
selectors tried in source order, candidates of a selector appended when
assembly succeeds and `isValidPost` holds, and the loop left as soon as
the collected list is non-empty; if every selector left it empty, the
fallback path (`extractPostsFallback`, opaque here) supplies the
result. -/

/-- The nine `postContainerSelectors` of `extractPosts`, as named
constants in source order. -/
inductive PostSelector
  | roleArticle        -- div[role=article]
  | postContainer      -- div[data-testid=post_container]
  | dataFtTopLevel     -- div[data-ft*=top_level_post_id]
  | storyBodyContainer -- div.story_body_container
  | structuredComposer -- div[id^=structured_composer_async_]
  | mobileArticle      -- article._55wo._5rgr._5gh8
  | userContentWrapper -- div.userContentWrapper
  | mStoryPermalink    -- div[id^=m_story_permalink_view]
  | dataStoreStory     -- div[data-store*=story_fbid]
  deriving DecidableEq

/-- The selector list in the order the source tries it. -/
def postContainerSelectors : List PostSelector :=
  [.roleArticle, .postContainer, .dataFtTopLevel, .storyBodyContainer,
   .structuredComposer, .mobileArticle, .userContentWrapper,
   .mStoryPermalink, .dataStoreStory]

/-- The posts one selector contributes: each found candidate run
through assembly, kept when assembly succeeds and the post is valid
(`post != nil && fs.isValidPost(post)`). -/
def postsOfSelector {α : Type} (find : PostSelector → List α)
    (extractSingle : α → Option ScrapedPost) (sel : PostSelector) :
    List ScrapedPost :=
  (find sel).filterMap fun n =>
    match extractSingle n with
    | some post => if isValidPost post then some post else none
    | none => none

/-- The selector loop of `extractPosts`: the collected list starts
empty, a selector with no valid posts leaves it empty and the loop
moves on (`continue` for zero elements is the special case of an empty
contribution), and `break` fires as soon as the list is non-empty. -/
def extractPostsLoop {α : Type} (find : PostSelector → List α)
    (extractSingle : α → Option ScrapedPost) :
    List PostSelector → List ScrapedPost
  | [] => []
  | sel :: rest =>
    let ps := postsOfSelector find extractSingle sel
    if ps.isEmpty then extractPostsLoop find extractSingle rest else ps

/-- The locator `extractPosts` (facebook.go): the selector loop over
`postContainerSelectors`, then `extractPostsFallback` (opaque, passed
as `fallback`) when no selector produced a post. -/
def extractPosts {α : Type} (find : PostSelector → List α)
    (extractSingle : α → Option ScrapedPost)
    (fallback : List ScrapedPost) : List ScrapedPost :=
  let posts := extractPostsLoop find extractSingle postContainerSelectors
  if posts.isEmpty then fallback else posts

/-! ### The link block of `extractTextualEntities` (facebook.go)

Links are collected from the anchors matched by
`a[href*=http]:not([href*=facebook.com]):not([href*=profile]):not([href*=hashtag])`,
so membership of an anchor in the iteration is a substring condition on
its `href`.  The body unwraps `l.facebook.com/l.php?u=` redirect
wrappers (via `url.Parse`, `Query().Get("u")` — which itself decodes
the parameter — and a further `url.QueryUnescape`) and appends hrefs
not already collected. -/

/-- Whether the anchor selector of the link block matches an anchor
with this `href`: it must contain `http` and contain none of
`facebook.com`, `profile`, `hashtag`. -/
def linkAnchorSelected (href : Str) : Bool :=
  goContains href (str "http") &&
    !goContains href (str "facebook.com") &&
    !goContains href (str "profile") &&
    !goContains href (str "hashtag")

/-- Value of a hex digit, `none` for other characters. -/
def hexVal (c : Char) : Option Nat :=
  if isDigitB c then some (c.toNat - '0'.toNat)
  else if 'a' ≤ c ∧ c ≤ 'f' then some (c.toNat - 'a'.toNat + 10)
  else if 'A' ≤ c ∧ c ≤ 'F' then some (c.toNat - 'A'.toNat + 10)
  else none

/-- Models `url.QueryUnescape`: `%XX` becomes the byte `XX`, `+` a space;
a `%` not followed by two hex digits is an error (`none`). -/
def queryUnescape : Str → Option Str
  | [] => some []
  | '%' :: a :: b :: rest =>
    match hexVal a, hexVal b with
    | some x, some y =>
      match queryUnescape rest with
      | some r => some (Char.ofNat (x * 16 + y) :: r)
      | none => none
    | _, _ => none
  | '%' :: _ => none
  | '+' :: rest =>
    match queryUnescape rest with
    | some r => some (' ' :: r)
    | none => none
  | c :: rest =>
    match queryUnescape rest with
    | some r => some (c :: r)
    | none => none

/-- Everything after the first `?` (the raw query of `url.Parse`,
fragments not modelled). -/
def rawQuery (href : Str) : Str :=
  (href.dropWhile (fun c => c ≠ '?')).drop 1

/-- The raw text of one `key=value` pair. -/
def splitAmp (q : Str) : List Str :=
  q.splitOn (Char.ofNat 38)

/-- The raw value of the first `u` parameter of the query. -/
def rawParamU (q : Str) : Option Str :=
  (splitAmp q).findSome? fun pair =>
    if isPrefixB (str "u=") pair then some (pair.drop 2) else none

/-- The body of the redirect-unwrap branch: `u.Query().Get("u")`
decodes the raw parameter once; when that yields a non-empty value,
`url.QueryUnescape` is applied to it again and replaces the href only
on success. -/
def unwrapRedirect (href : Str) : Str :=
  match rawParamU (rawQuery href) with
  | some raw =>
    match queryUnescape raw with
    | some once =>
      if once.isEmpty then href
      else
        match queryUnescape once with
        | some twice => twice
        | none => href
    | none => href
  | none => href

/-- One iteration of the link `Each` body: skip hrefs that are empty or
do not start with `http`, unwrap `l.facebook.com/l.php?u=` wrappers,
and append the href unless already present. -/
def addLink (links : List Str) (href0 : Str) : List Str :=
  if href0 ≠ [] ∧ goStartsWith href0 (str "http") = true then
    let href :=
      if goContains href0 (str "l.facebook.com/l.php?u=") then
        unwrapRedirect href0
      else href0
    if href ∈ links then links else links ++ [href]
  else links

/-- The link block of `extractTextualEntities`: the anchors of the
candidate node, in document order, filtered by the selector, folded
through the body. -/
def extractLinks (anchorHrefs : List Str) : List Str :=
  (anchorHrefs.filter linkAnchorSelected).foldl addLink []

/-! ### The identifier extractor `extractPostID` (facebook.go)

Methods 1–4 (the `data-ft` tracking JSON, the `data-store` JSON, the
permalink-URL regexes, the element-id regex) read the DOM and parse
JSON, which the claims do not inspect; each is modelled as an oracle
argument `Option Str` — `some id` when the method returns `id` (the
source returns a method's result only when it is a non-empty capture),
`none` when it falls through.  Method 5 is modelled in full: the
generated fallback `fmt.Sprintf("%s_%d", groupID, time.Now().UnixNano())`. -/

/-- The identifier extractor `extractPostID` (facebook.go): the first method that yields an
identifier wins; when all four fail, the generated fallback
`groupID_<unix-nanoseconds>` is returned. -/
def extractPostID (method1 method2 method3 method4 : Option Str)
    (groupID : Str) (nowUnixNano : Nat) : Str :=
  match method1 with
  | some id => id
  | none =>
    match method2 with
    | some id => id
    | none =>
      match method3 with
      | some id => id
      | none =>
        match method4 with
        | some id => id
        | none => groupID ++ str "_" ++ (Nat.repr nowUnixNano).toList

/-! ### Concrete instances used by counterexamples and witnesses -/

/-- A post with ID `a` and 5 likes. -/
def postLikes5 : ScrapedPost := { emptyPost with ID := str "a", LikesCount := 5 }

/-- A duplicate of `postLikes5` (same ID) carrying 12 likes. -/
def postLikes12 : ScrapedPost := { emptyPost with ID := str "a", LikesCount := 12 }

/-- A post whose only signal besides its ID is a positive comment
count. -/
def postCommentsOnly : ScrapedPost :=
  { emptyPost with ID := str "p1", CommentsCount := 3 }

/-- A valid post used by the locator scenarios. -/
def locatorValidPost : ScrapedPost :=
  { emptyPost with ID := str "v", AuthorName := str "Ann" }

/-- A document in which the first selector finds candidate 1 and the
second selector finds candidate 2. -/
def locatorFind : PostSelector → List Nat
  | .roleArticle => [1]
  | .postContainer => [2]
  | _ => []

/-- Assembly for that document: candidate 1 assembles to an invalid
post (no ID), candidate 2 to a valid one. -/
def locatorExtract : Nat → Option ScrapedPost
  | 1 => some emptyPost
  | 2 => some locatorValidPost
  | _ => none

/-- A post whose ID is the generated fallback for group `g12` at
nanosecond 17, with some content. -/
def fallbackIDPost : ScrapedPost :=
  { emptyPost with ID := extractPostID none none none none (str "g12") 17,
                   Content := str "hi" }

/-! ## Theorems -/

/-! ### Helper lemmas about the deduplication loop -/

theorem removeDupGo_twice (l : List ScrapedPost) :
    ∀ seen, removeDupGo seen (removeDupGo seen l) = removeDupGo seen l := by
  induction l with
  | nil => intro seen; rfl
  | cons p rest ih =>
    intro seen
    by_cases hm : p.ID ∈ seen
    · simp only [removeDupGo, if_pos hm]
      exact ih seen
    · simp only [removeDupGo, if_neg hm]
      rw [ih (p.ID :: seen)]

theorem removeDupGo_find (l : List ScrapedPost) :
    ∀ seen s, s ∉ seen →
      (removeDupGo seen l).find? (fun p => p.ID == s) =
        l.find? (fun p => p.ID == s) := by
  induction l with
  | nil => intro seen s _; rfl
  | cons p rest ih =>
    intro seen s hs
    by_cases hm : p.ID ∈ seen
    · have hne : (p.ID == s) = false := by
        refine beq_eq_false_iff_ne.mpr ?_
        intro he; exact hs (he ▸ hm)
      simp only [removeDupGo, if_pos hm, List.find?_cons, hne]
      exact ih seen s hs
    · simp only [removeDupGo, if_neg hm, List.find?_cons]
      by_cases he : p.ID = s
      · simp [he]
      · have hne : (p.ID == s) = false := beq_eq_false_iff_ne.mpr he
        simp only [hne]
        refine ih (p.ID :: seen) s ?_
        intro hmem
        rcases List.mem_cons.mp hmem with h1 | h2
        · exact he h1.symm
        · exact hs h2

/-- C1 (counterexample).  The claim says merging two duplicate posts
(same identifier) with likes 5 and 12 yields a post with likes 12 (the
maximum).  On the code, `removeDuplicatePosts` keeps the first-seen
post wholesale: merging `postLikes5` and `postLikes12` (both ID `a`)
yields exactly `[postLikes5]`, whose likes counter is 5, not 12. -/
theorem dedup_keeps_first_likes_cex :
    removeDuplicatePosts [postLikes5, postLikes12] = [postLikes5] ∧
      postLikes5.LikesCount = 5 ∧ postLikes12.LikesCount = 12 := by
  refine ⟨by decide, by decide, by decide⟩

/-- C1 (amended).  For every input list and every identifier, the
representative that survives `removeDuplicatePosts` for that
identifier is exactly the *first-seen* post with that identifier in
the input — so every field of the merged post, the engagement counters
included, equals the first-seen duplicate's value (first-wins), not
the maximum across duplicates. -/
theorem removeDuplicatePosts_first_seen_wins
    (l : List ScrapedPost) (s : Str) :
    (removeDuplicatePosts l).find? (fun p => p.ID == s) =
      l.find? (fun p => p.ID == s) :=
  removeDupGo_find l [] s (List.not_mem_nil s)

/-- C5.  Merging is idempotent: applying `removeDuplicatePosts` to its
own output changes nothing. -/
theorem removeDuplicatePosts_idem (l : List ScrapedPost) :
    removeDuplicatePosts (removeDuplicatePosts l) = removeDuplicatePosts l :=
  removeDupGo_twice l []

/-- C2 (counterexample).  The claim says a candidate whose only
positive engagement is a comment count is valid.  On the code,
`postCommentsOnly` (non-empty ID, 3 comments, everything else empty or
zero) is rejected by `isValidPost`, while the specification's wording
of the rule (`isValidPostSpec`, comments and shares counting as
engagement) accepts it. -/
theorem isValidPost_comments_only_cex :
    isValidPost postCommentsOnly = false ∧
      isValidPostSpec postCommentsOnly = true := by
  refine ⟨by decide, by decide⟩

/-- C2 (amended).  A post is accepted by `isValidPost` exactly when it
has a non-empty identifier and at least one of non-empty content,
non-empty author, a positive *likes* counter, or a positive media
count; positive comment or share counters (and any timestamp) never
make a post valid on their own. -/
theorem isValidPost_characterization :
    (∀ post : ScrapedPost,
      isValidPost post = true ↔
        (post.ID ≠ [] ∧
          (post.Content ≠ [] ∨ post.AuthorName ≠ [] ∨
            0 < post.LikesCount ∨ 0 < post.MediaCount))) ∧
    (∀ post : ScrapedPost,
      post.Content = [] → post.AuthorName = [] →
      post.LikesCount ≤ 0 → post.MediaCount ≤ 0 →
      isValidPost post = false) := by
  constructor
  · intro post
    simp only [isValidPost, Bool.and_eq_true, Bool.not_eq_eq_eq_not, Bool.not_true,
      List.isEmpty_eq_false, ne_eq, Bool.or_eq_true, decide_eq_true_iff,
      List.isEmpty_iff]
    tauto
  · intro post hc ha hl hm
    simp [isValidPost, hc, ha]
    omega

/-- C10.  When the tracking-data, data-store, permalink and element-id
strategies all fail, `extractPostID` generates the fallback
`groupID_<nanoseconds>`, which is non-empty for every group id and
capture time; consequently, for a post carrying such an ID, the
non-empty-identifier conjunct of `isValidPost` holds and validity
reduces to the remaining disjunction, so the ID conjunct alone can
never cause the candidate to be discarded. -/
theorem extractPostID_fallback_nonempty
    (groupID : Str) (t : Nat) (post : ScrapedPost)
    (h : post.ID = extractPostID none none none none groupID t) :
    0 < post.ID.length ∧
      isValidPost post =
        (!post.Content.isEmpty || !post.AuthorName.isEmpty ||
          decide (0 < post.LikesCount) || decide (0 < post.MediaCount)) := by
  have hlen : 0 < post.ID.length := by
    rw [h]
    simp [extractPostID, str]
  refine ⟨hlen, ?_⟩
  have hne : post.ID.isEmpty = false := by
    cases hid : post.ID with
    | nil => rw [hid] at hlen; simp at hlen
    | cons c cs => simp
  simp [isValidPost, hne]

/-- C10 (witness): the theorem applied to the concrete group `g12`,
capture time 17 and the post `fallbackIDPost` built on the generated
fallback identifier. -/
theorem extractPostID_fallback_nonempty_witness :
    0 < fallbackIDPost.ID.length ∧
      isValidPost fallbackIDPost =
        (!fallbackIDPost.Content.isEmpty || !fallbackIDPost.AuthorName.isEmpty ||
          decide (0 < fallbackIDPost.LikesCount) || decide (0 < fallbackIDPost.MediaCount)) :=
  extractPostID_fallback_nonempty (str "g12") 17 fallbackIDPost rfl

/-! ### Helper lemmas: character classes survive lower-casing and
trimming, and digit-free text defeats every numeric matcher -/

theorem char_toNat_ofNat {n : Nat} (h : n < 55296) :
    (Char.ofNat n).toNat = n := by
  have hv : n.isValidChar := Or.inl h
  unfold Char.ofNat
  rw [dif_pos hv]
  rfl

theorem isDigitB_lowerChar (c : Char) :
    isDigitB (lowerChar c) = isDigitB c := by
  unfold lowerChar
  split
  · rename_i h
    have h2 : (Char.ofNat (c.toNat + 32)).toNat = c.toNat + 32 :=
      char_toNat_ofNat (by omega)
    unfold isDigitB
    rw [h2, decide_eq_false (by omega), decide_eq_false (by omega)]
  · rfl

theorem mem_trimSpace {c : Char} {s : Str} (h : c ∈ trimSpace s) : c ∈ s := by
  unfold trimSpace at h
  rw [List.mem_reverse] at h
  have h2 := (List.dropWhile_sublist _).subset h
  rw [List.mem_reverse] at h2
  exact (List.dropWhile_sublist _).subset h2

theorem noDigit_processed {s : Str} (h : ∀ c ∈ s, isDigitB c = false) :
    ∀ c ∈ toLowerStr (trimSpace s), isDigitB c = false := by
  intro c hc
  rw [toLowerStr, List.mem_map] at hc
  obtain ⟨d, hd, rfl⟩ := hc
  rw [isDigitB_lowerChar]
  exact h d (mem_trimSpace hd)

theorem findSuffixValue_none {s : Str} (h : ∀ c ∈ s, isDigitB c = false) :
    findSuffixValue s = none := by
  induction s with
  | nil => rfl
  | cons c t ih =>
    have hc : isDigitB c = false := h c (List.mem_cons_self _ _)
    have hAt : suffixValueAt (c :: t) = none := by
      simp [suffixValueAt, List.takeWhile_cons, hc]
    simp only [findSuffixValue, hAt]
    exact ih fun d hd => h d (List.mem_cons_of_mem _ hd)

theorem findCommaValue_none {s : Str} (h : ∀ c ∈ s, isDigitB c = false) :
    findCommaValue s = none := by
  induction s with
  | nil => rfl
  | cons c t ih =>
    have hc : isDigitB c = false := h c (List.mem_cons_self _ _)
    have hAt : commaValueAt (c :: t) = none := by
      simp [commaValueAt, List.takeWhile_cons, hc]
    simp only [findCommaValue, hAt]
    exact ih fun d hd => h d (List.mem_cons_of_mem _ hd)

theorem findSimpleValue_none {s : Str} (h : ∀ c ∈ s, isDigitB c = false) :
    findSimpleValue s = none := by
  induction s with
  | nil => rfl
  | cons c t ih =>
    have hc : isDigitB c = false := h c (List.mem_cons_self _ _)
    simp only [findSimpleValue, hc, Bool.false_eq_true, if_false]
    exact ih fun d hd => h d (List.mem_cons_of_mem _ hd)

theorem findTimeMatch_none {s : Str} (h : ∀ c ∈ s, isDigitB c = false) :
    findTimeMatch s = none := by
  induction s with
  | nil => rfl
  | cons c t ih =>
    have hc : isDigitB c = false := h c (List.mem_cons_self _ _)
    have hAt : timeMatchAt (c :: t) = none := by
      simp [timeMatchAt, List.takeWhile_cons, hc]
    simp only [findTimeMatch, hAt]
    exact ih fun d hd => h d (List.mem_cons_of_mem _ hd)

/-- C3 (counterexample).  The claim says the count parser recognizes a
`B` suffix (so `1.5B` would be 1500000000).  On the code, the suffix
regex accepts only `k` and `m`: on input `1.5B` it fails, the comma
regex fails, and the bare-digit regex returns the leading `1`. -/
theorem extractNumber_b_suffix_cex :
    extractNumberFromText (str "1.5B") = 1 := by decide

/-- C3 (amended).  `extractNumberFromText` recognizes, in priority
order, a decimal number with a case-insensitive `K` or `M` suffix (`B`
is not recognized), comma-grouped integers with the grouping stripped,
and bare integer runs, and returns 0 for text containing no decimal
digit: `1.2K` is 1200, `5.4M` is 5400000, `5,300` is 5300, and `1.5B`
falls through to the bare-digit rule and is 1. -/
theorem extractNumberFromText_spec :
    (∀ s : Str, (∀ c ∈ s, isDigitB c = false) → extractNumberFromText s = 0) ∧
    extractNumberFromText (str "1.2K") = 1200 ∧
    extractNumberFromText (str "5.4M") = 5400000 ∧
    extractNumberFromText (str "5,300") = 5300 ∧
    extractNumberFromText (str "1.5B") = 1 ∧
    extractNumberFromText (str "no numbers here") = 0 := by
  refine ⟨?_, by decide, by decide, by decide, by decide, by decide⟩
  intro s h
  have ht := noDigit_processed h
  unfold extractNumberFromText
  simp only [findSuffixValue_none ht, findCommaValue_none ht,
    findSimpleValue_none ht]

/-- C4 (counterexample).  The claim says every unit in
{second, minute, hour, day, week, month, year} is recognized.  On the
code, the regex alternation has no `second`: `5 seconds ago` matches
nothing and yields the zero time (not-ok), while `5 minutes ago` — the
same shape with a listed unit — is recognized. -/
theorem parseRelativeTime_seconds_cex :
    parseRelativeTime (str "5 seconds ago") 0 = GoTimeExpr.zero ∧
      parseRelativeTime (str "5 minutes ago") 0 = GoTimeExpr.subMinutes 5 := by
  refine ⟨by decide, by decide⟩

/-- C4 (amended).  `parseRelativeTime` recognizes `N unit(s) ago` for
the units minute, hour, day, week, month and year (`second` is not in
the pattern and such text yields the zero time); `yesterday` maps to
one day before now and `today` to now; and any text containing no
decimal digit, no weekday name and neither `yesterday` nor `today`
yields the zero time (not-ok).  Day, week, month and year offsets use
`AddDate`; minute and hour offsets use fixed durations. -/
theorem parseRelativeTime_units_spec :
    (∀ w : Fin 7,
      parseRelativeTime (str "3 hours ago") w = GoTimeExpr.subHours 3 ∧
      parseRelativeTime (str "45 minutes ago") w = GoTimeExpr.subMinutes 45 ∧
      parseRelativeTime (str "2 days ago") w = GoTimeExpr.subDays 2 ∧
      parseRelativeTime (str "2 weeks ago") w = GoTimeExpr.subDays 14 ∧
      parseRelativeTime (str "6 months ago") w = GoTimeExpr.subMonths 6 ∧
      parseRelativeTime (str "4 years ago") w = GoTimeExpr.subYears 4 ∧
      parseRelativeTime (str "5 seconds ago") w = GoTimeExpr.zero ∧
      parseRelativeTime (str "yesterday") w = GoTimeExpr.subDays 1 ∧
      parseRelativeTime (str "today") w = GoTimeExpr.nowT) ∧
    (∀ (s : Str) (w : Fin 7),
      (∀ c ∈ s, isDigitB c = false) →
      goContains (toLowerStr (trimSpace s)) (str "yesterday") = false →
      goContains (toLowerStr (trimSpace s)) (str "today") = false →
      goContains (toLowerStr (trimSpace s)) (str "monday") = false →
      goContains (toLowerStr (trimSpace s)) (str "tuesday") = false →
      goContains (toLowerStr (trimSpace s)) (str "wednesday") = false →
      goContains (toLowerStr (trimSpace s)) (str "thursday") = false →
      goContains (toLowerStr (trimSpace s)) (str "friday") = false →
      goContains (toLowerStr (trimSpace s)) (str "saturday") = false →
      goContains (toLowerStr (trimSpace s)) (str "sunday") = false →
      parseRelativeTime s w = GoTimeExpr.zero) := by
  constructor
  · decide
  · intro s w hd hy htd hmon htue hwed hthu hfri hsat hsun
    unfold parseRelativeTime
    simp only [findTimeMatch_none (noDigit_processed hd), hy, htd,
      Bool.false_eq_true, if_false]
    have hwk : findWeekday (toLowerStr (trimSpace s)) = none := by
      simp [findWeekday, daysOfWeek, hmon, htue, hwed, hthu, hfri, hsat, hsun]
    rw [hwk]

/-- C8.  For every weekday of `now` and every weekday-name input, the
parser returns `now.AddDate(0, 0, -diff)` with `diff = weekdayDiff`,
and `weekdayDiff` is always between one and seven days, equal to seven
exactly when the named weekday is today's weekday: the most recent
strictly-past occurrence of that weekday, with same-weekday-as-today
resolved to last week. -/
theorem parseRelativeTime_weekday_spec :
    ∀ w : Fin 7,
      (parseRelativeTime (str "monday") w = GoTimeExpr.subDays (weekdayDiff w 1) ∧
       parseRelativeTime (str "tuesday") w = GoTimeExpr.subDays (weekdayDiff w 2) ∧
       parseRelativeTime (str "wednesday") w = GoTimeExpr.subDays (weekdayDiff w 3) ∧
       parseRelativeTime (str "thursday") w = GoTimeExpr.subDays (weekdayDiff w 4) ∧
       parseRelativeTime (str "friday") w = GoTimeExpr.subDays (weekdayDiff w 5) ∧
       parseRelativeTime (str "saturday") w = GoTimeExpr.subDays (weekdayDiff w 6) ∧
       parseRelativeTime (str "sunday") w = GoTimeExpr.subDays (weekdayDiff w 0)) ∧
      (∀ k : Fin 7,
        1 ≤ weekdayDiff w k.val ∧ weekdayDiff w k.val ≤ 7 ∧
          (weekdayDiff w k.val = 7 ↔ w = k)) := by
  decide

/-! ### Helper lemmas about the filter -/

theorem applyFilter_true_iff (now : Int) (p : ScrapedPost) (f : PostFilter) :
    ApplyFilter now p f = true ↔
      (failMinLikes p f = false ∧ failMaxLikes p f = false ∧
       failMinComments p f = false ∧ failMinShares p f = false ∧
       failDaysBack now p f = false ∧ failStartDate p f = false ∧
       failEndDate p f = false ∧ failKeywords p f = false ∧
       failExclude p f = false ∧ failGroupIDs p f = false ∧
       failAuthors p f = false) := by
  unfold ApplyFilter
  cases h1 : failMinLikes p f <;> simp only [h1] <;> simp

theorem applyFilter_clearField (fld : FilterField) (now : Int)
    (p : ScrapedPost) (f : PostFilter) (h : ApplyFilter now p f = true) :
    ApplyFilter now p (clearField fld f) = true := by
  rw [applyFilter_true_iff] at h ⊢
  obtain ⟨h1, h2, h3, h4, h5, h6, h7, h8, h9, h10, h11⟩ := h
  cases fld with
  | minLikes =>
    exact ⟨by simp [failMinLikes, clearField], h2, h3, h4, h5, h6, h7, h8, h9, h10, h11⟩
  | maxLikes =>
    exact ⟨h1, by simp [failMaxLikes, clearField], h3, h4, h5, h6, h7, h8, h9, h10, h11⟩
  | minComments =>
    exact ⟨h1, h2, by simp [failMinComments, clearField], h4, h5, h6, h7, h8, h9, h10, h11⟩
  | minShares =>
    exact ⟨h1, h2, h3, by simp [failMinShares, clearField], h5, h6, h7, h8, h9, h10, h11⟩
  | daysBack =>
    exact ⟨h1, h2, h3, h4, by simp [failDaysBack, clearField], h6, h7, h8, h9, h10, h11⟩
  | startDate =>
    exact ⟨h1, h2, h3, h4, h5, by simp [failStartDate, clearField], h7, h8, h9, h10, h11⟩
  | endDate =>
    exact ⟨h1, h2, h3, h4, h5, h6, by simp [failEndDate, clearField], h8, h9, h10, h11⟩
  | keywords =>
    exact ⟨h1, h2, h3, h4, h5, h6, h7, by simp [failKeywords, clearField], h9, h10, h11⟩
  | excludeKeywords =>
    exact ⟨h1, h2, h3, h4, h5, h6, h7, h8, by simp [failExclude, clearField], h10, h11⟩
  | groupIDs =>
    exact ⟨h1, h2, h3, h4, h5, h6, h7, h8, h9, by simp [failGroupIDs, clearField], h11⟩
  | authorNames =>
    exact ⟨h1, h2, h3, h4, h5, h6, h7, h8, h9, h10, by simp [failAuthors, clearField]⟩

/-- C6.  The filter is a conjunction of independently configured
predicates and is monotone in the criteria: clearing (leaving
unconfigured) any one predicate of the criteria can only grow, never
shrink, the set of posts that passes — both per post and for the list
`BatchFilter` collects — and a post that passes satisfies every
configured predicate (minimum/maximum engagement thresholds, the
recency window and date bounds, the include and exclude keyword sets,
and the group/author allow-lists). -/
theorem applyFilter_conjunctive_monotone :
    (∀ (fld : FilterField) (now : Int) (p : ScrapedPost) (f : PostFilter),
      ApplyFilter now p f = true → ApplyFilter now p (clearField fld f) = true) ∧
    (∀ (fld : FilterField) (now : Int) (f : PostFilter)
        (posts : List ScrapedPost) (p : ScrapedPost),
      p ∈ BatchFilterPosts now posts f →
        p ∈ BatchFilterPosts now posts (clearField fld f)) ∧
    (∀ (now : Int) (p : ScrapedPost) (f : PostFilter),
      ApplyFilter now p f = true →
        ((0 < f.MinLikes → f.MinLikes ≤ p.LikesCount) ∧
         (0 < f.MaxLikes → p.LikesCount ≤ f.MaxLikes) ∧
         (0 < f.MinComments → f.MinComments ≤ p.CommentsCount) ∧
         (0 < f.MinShares → f.MinShares ≤ p.SharesCount) ∧
         (0 < f.DaysBack → now - secondsPerDay * f.DaysBack ≤ p.PostTime) ∧
         (f.StartDate ≠ 0 → f.StartDate ≤ p.PostTime) ∧
         (f.EndDate ≠ 0 → p.PostTime ≤ f.EndDate) ∧
         (f.Keywords ≠ [] → hasAnyKeyword p.Content f.Keywords = true) ∧
         (f.ExcludeKeywords ≠ [] → hasAnyKeyword p.Content f.ExcludeKeywords = false) ∧
         (f.GroupIDs ≠ [] → (f.GroupIDs.any fun g => p.GroupID == g) = true) ∧
         (f.AuthorNames ≠ [] → (f.AuthorNames.any fun a => equalFold p.AuthorName a) = true))) := by
  refine ⟨fun fld now p f h => applyFilter_clearField fld now p f h, ?_, ?_⟩
  · intro fld now f posts p hp
    rw [BatchFilterPosts, List.mem_filter] at hp ⊢
    exact ⟨hp.1, applyFilter_clearField fld now p f hp.2⟩
  · intro now p f h
    rw [applyFilter_true_iff] at h
    obtain ⟨h1, h2, h3, h4, h5, h6, h7, h8, h9, h10, h11⟩ := h
    unfold failMinLikes at h1
    unfold failMaxLikes at h2
    unfold failMinComments at h3
    unfold failMinShares at h4
    unfold failDaysBack at h5
    unfold failStartDate at h6
    unfold failEndDate at h7
    unfold failKeywords at h8
    unfold failExclude at h9
    unfold failGroupIDs at h10
    unfold failAuthors at h11
    rw [decide_eq_false_iff_not] at h1 h2 h3 h4 h5 h6 h7 h8 h9 h10 h11
    refine ⟨by omega, by omega, by omega, by omega, by omega,
      fun hs => ?_, fun he => ?_, fun hk => ?_, fun hx => ?_,
      fun hg => ?_, fun ha => ?_⟩
    · by_contra hlt
      exact h6 ⟨hs, by omega⟩
    · by_contra hlt
      exact h7 ⟨he, by omega⟩
    · cases hb : hasAnyKeyword p.Content f.Keywords with
      | true => rfl
      | false => exact absurd ⟨hk, hb⟩ h8
    · cases hb : hasAnyKeyword p.Content f.ExcludeKeywords with
      | true => exact absurd ⟨hx, hb⟩ h9
      | false => rfl
    · cases hb : f.GroupIDs.any fun g => p.GroupID == g with
      | true => rfl
      | false => exact absurd ⟨hg, hb⟩ h10
    · cases hb : f.AuthorNames.any fun a => equalFold p.AuthorName a with
      | true => rfl
      | false => exact absurd ⟨ha, hb⟩ h11

/-! ### Helper lemma about the selector loop -/

theorem extractPostsLoop_append {α : Type} (find : PostSelector → List α)
    (ex : α → Option ScrapedPost) (l1 : List PostSelector)
    (sel : PostSelector) (l2 : List PostSelector)
    (hprev : ∀ s ∈ l1, postsOfSelector find ex s = [])
    (hsel : postsOfSelector find ex sel ≠ []) :
    extractPostsLoop find ex (l1 ++ sel :: l2) = postsOfSelector find ex sel := by
  induction l1 with
  | nil =>
    have : (postsOfSelector find ex sel).isEmpty = false := by
      cases hps : postsOfSelector find ex sel with
      | nil => exact absurd hps hsel
      | cons a l => simp
    simp [extractPostsLoop, this]
  | cons a l ih =>
    have ha := hprev a (List.mem_cons_self _ _)
    simp only [List.cons_append, extractPostsLoop, ha, List.isEmpty_nil, if_true]
    exact ih fun s hs => hprev s (List.mem_cons_of_mem _ hs)

/-- C7 (counterexample).  The claim says the locator stops at the
first strategy yielding at least one *candidate*.  In this concrete
document the first selector (`div[role=article]`) finds candidate 1,
which assembles to an invalid post; the loop does not stop there: the
second selector's candidate 2 is processed and its valid post is the
result. -/
theorem extractPosts_candidate_stop_cex :
    extractPosts locatorFind locatorExtract [] = [locatorValidPost] ∧
      locatorFind PostSelector.roleArticle = [1] ∧
      locatorExtract 1 = some emptyPost ∧
      isValidPost emptyPost = false := by
  refine ⟨by decide, by decide, by decide, by decide⟩

/-- C7 (amended).  The locator stops at the first selector strategy
that yields at least one *valid assembled post*: if every selector
before `sel` in `postContainerSelectors` contributes no valid post and
`sel` contributes at least one, the result of `extractPosts` is
exactly `sel`'s contribution — later strategies' matches are not
processed, but strategies whose candidates all fail assembly or
validity do not stop the scan. -/
theorem extractPosts_first_valid_selector_wins {α : Type}
    (find : PostSelector → List α) (ex : α → Option ScrapedPost)
    (fb : List ScrapedPost) (l1 : List PostSelector) (sel : PostSelector)
    (l2 : List PostSelector)
    (hsplit : postContainerSelectors = l1 ++ sel :: l2)
    (hprev : ∀ s ∈ l1, postsOfSelector find ex s = [])
    (hsel : postsOfSelector find ex sel ≠ []) :
    extractPosts find ex fb = postsOfSelector find ex sel := by
  unfold extractPosts
  rw [hsplit, extractPostsLoop_append find ex l1 sel l2 hprev hsel]
  have : (postsOfSelector find ex sel).isEmpty = false := by
    cases hps : postsOfSelector find ex sel with
    | nil => exact absurd hps hsel
    | cons a l => simp
  simp [this]

/-- C7 (witness): the amended theorem applied to the concrete document
`locatorFind`/`locatorExtract`, whose first selector contributes no
valid post and whose second contributes one. -/
theorem extractPosts_first_valid_selector_wins_witness :
    extractPosts locatorFind locatorExtract [] =
      postsOfSelector locatorFind locatorExtract PostSelector.postContainer :=
  extractPosts_first_valid_selector_wins locatorFind locatorExtract []
    [PostSelector.roleArticle] PostSelector.postContainer
    [PostSelector.dataFtTopLevel, PostSelector.storyBodyContainer,
     PostSelector.structuredComposer, PostSelector.mobileArticle,
     PostSelector.userContentWrapper, PostSelector.mStoryPermalink,
     PostSelector.dataStoreStory]
    rfl (by decide) (by decide)

/-! ### Helper lemmas about `goContains` -/

theorem isPrefixB_iff : ∀ (a b : Str), isPrefixB a b = true ↔ ∃ t, b = a ++ t
  | [], b => by simp [isPrefixB]
  | a :: as, [] => by simp [isPrefixB]
  | a :: as, b :: bs => by
    simp only [isPrefixB, Bool.and_eq_true, decide_eq_true_iff]
    constructor
    · rintro ⟨rfl, h⟩
      obtain ⟨t, rfl⟩ := (isPrefixB_iff as bs).mp h
      exact ⟨t, rfl⟩
    · rintro ⟨t, ht⟩
      injection ht with h1 h2
      exact ⟨h1.symm, (isPrefixB_iff as bs).mpr ⟨t, h2⟩⟩

theorem goContains_iff :
    ∀ (s sub : Str), goContains s sub = true ↔ ∃ p q, s = p ++ (sub ++ q)
  | [], sub => by
    simp only [goContains]
    rw [isPrefixB_iff]
    constructor
    · rintro ⟨t, ht⟩
      exact ⟨[], t, by simpa using ht⟩
    · rintro ⟨p, q, hpq⟩
      rw [eq_comm, List.append_eq_nil] at hpq
      obtain ⟨h1, h2⟩ := hpq
      rw [List.append_eq_nil] at h2
      exact ⟨q, by simp [h2.1, h2.2]⟩
  | c :: t, sub => by
    simp only [goContains, Bool.or_eq_true]
    rw [isPrefixB_iff, goContains_iff t sub]
    constructor
    · rintro (⟨u, hu⟩ | ⟨p, q, hpq⟩)
      · exact ⟨[], u, by simpa using hu⟩
      · exact ⟨c :: p, q, by simp [hpq]⟩
    · rintro ⟨p, q, hpq⟩
      cases p with
      | nil => exact Or.inl ⟨q, by simpa using hpq⟩
      | cons x xs =>
        injection hpq with h1 h2
        exact Or.inr ⟨xs, q, h2⟩

theorem goContains_trans {s a b : Str} (h1 : goContains s a = true)
    (h2 : goContains a b = true) : goContains s b = true := by
  rw [goContains_iff] at h1 h2 ⊢
  obtain ⟨p, q, rfl⟩ := h1
  obtain ⟨r, u, rfl⟩ := h2
  exact ⟨p ++ r, u ++ q, by simp⟩

/-- C9.  The link selector of `extractTextualEntities` carries
`:not([href*=facebook.com])`, and every redirect-wrapper URL (one
containing `l.facebook.com/l.php?u=`) contains `facebook.com`, so no
wrapper anchor is ever selected and the unwrap branch in the loop body
is unreachable: on a document whose only anchor is a wrapper around
`https://example.com` (percent-encoded), the extracted link list is
empty, even though decoding the wrapped parameter (the third conjunct)
would yield the destination the specification says is included. -/
theorem redirect_wrapper_links_excluded :
    (∀ href : Str,
      goContains href (str "l.facebook.com/l.php?u=") = true →
        linkAnchorSelected href = false) ∧
    extractLinks [str "https://l.facebook.com/l.php?u=https%3A%2F%2Fexample.com"] = [] ∧
    queryUnescape (str "https%3A%2F%2Fexample.com") = some (str "https://example.com") := by
  refine ⟨?_, by decide, by decide⟩
  intro href h
  have hfb : goContains href (str "facebook.com") = true :=
    goContains_trans h (by decide)
  simp [linkAnchorSelected, hfb]
